import Mathlib

/-!
Shallow embedding of `django-usernamefield`
(`src/django_usernamefield/__init__.py`), a denormalisation helper that
mirrors a related `username` string onto the owning record, keeps a
process-wide registry of every field instance, and offers two batch
operations (`rename_username` and `lint`).
-/

namespace UsernameField

/-- Python slice `s[:n]`: the first `n` characters of `s`, the whole string
when it is shorter.  Mirrors `username[:max_length]` in the source. -/
def pySlice (s : String) (n : Nat) : String := ⟨s.data.take n⟩

/-- The outcome of reading `getattr(obj, populate_from)` on a record: a
related object carrying a `username`, the null sentinel `None`, or a
dangling foreign key whose resolution raises `ObjectDoesNotExist`. -/
inductive Relation where
  | related (username : String)
  | nullRel
  | dangling
deriving DecidableEq, Repr

/-- An owning record as seen by `pre_save`: the current value of the target
attribute (`none` models Python `None`) and its `populate_from` relation. -/
structure Obj where
  target : Option String
  relation : Relation
deriving DecidableEq, Repr

/-- `UsernameField.pre_save` (source lines 38-51): when the target
attribute equals the empty string, resolve the relation; a related object
writes its username truncated to `max_length`, the null sentinel writes the
empty string, and `ObjectDoesNotExist` is swallowed, leaving the attribute
alone.  Returns the updated record paired with the value `pre_save`
returns (the final `getattr(obj, self.name)`). -/
def preSave (max_length : Nat) (obj : Obj) : Obj × Option String :=
  if obj.target = some "" then
    match obj.relation with
    | .related u =>
        let o : Obj := { obj with target := some (pySlice u max_length) }
        (o, o.target)
    | .nullRel =>
        let o : Obj := { obj with target := some "" }
        (o, o.target)
    | .dangling => (obj, obj.target)
  else
    (obj, obj.target)

/-- One entry of the process-wide registry `UsernameField.instances`: the
tuple `(cls, self.populate_from, name, self.max_length)` appended by
`contribute_to_class`.  Model classes are identified by a numeric tag. -/
structure Entry where
  model : Nat
  source : String
  targetName : String
  max_length : Nat
deriving DecidableEq, Repr

/-- The class metadata `contribute_to_class` consults: the model tag and
the value of `cls._meta.abstract`. -/
structure ModelMeta where
  model : Nat
  abstract : Bool
deriving DecidableEq, Repr

/-- `UsernameField.contribute_to_class` (source lines 53-59): when the
owning model is not abstract, append one registry entry; otherwise leave
the registry as it is. -/
def contributeToClass (populate_from : String) (max_length : Nat)
    (registry : List Entry) (cls : ModelMeta) (nm : String) : List Entry :=
  if cls.abstract then registry
  else registry ++ [⟨cls.model, populate_from, nm, max_length⟩]

/-- A row of a model that declares the field: primary key, the source
foreign key (`none` models SQL NULL) and the denormalised target
attribute. -/
structure Row where
  pk : Nat
  fk : Option Nat
  target : String
deriving DecidableEq, Repr

/-- A row of the canonical user table (`django.contrib.auth.models.User`). -/
structure UserRow where
  pk : Nat
  username : String
deriving DecidableEq, Repr

/-- A database write issued by `rename_username`: one bulk
`model.objects.filter(source=user_id).update(target=value)` per registry
entry, and the final
`User.objects.filter(pk=user_id).update(username=username)`. -/
inductive Op where
  | bulkUpdate (model : Nat) (source : String) (userId : Nat)
      (targetName : String) (value : String)
  | userUpdate (userId : Nat) (username : String)
deriving DecidableEq, Repr

/-- `UsernameField.rename_username` (source lines 61-73), as the sequence
of database writes it issues: the for-loop over `cls.instances` appends one
bulk update per entry with the username truncated to that entry bound,
then the canonical user record is updated with the untruncated username. -/
def renameUsername (registry : List Entry) (userId : Nat) (username : String) :
    List Op :=
  registry.foldl
    (fun acc e =>
      acc ++ [Op.bulkUpdate e.model e.source userId e.targetName
        (pySlice username e.max_length)])
    [] ++ [Op.userUpdate userId username]

/-- Row-level effect of `filter(source=user_id).update(target=value)` on
the rows of the entry model: each row whose foreign key equals `user_id`
has its target attribute replaced, every other row is untouched. -/
def bulkUpdateRows (userId : Nat) (value : String) : List Row → List Row
  | [] => []
  | r :: rs =>
      (if r.fk = some userId then { r with target := value } else r) ::
        bulkUpdateRows userId value rs

/-- Row-level effect of
`User.objects.filter(pk=user_id).update(username=username)`. -/
def userUpdateRows (userId : Nat) (username : String) :
    List UserRow → List UserRow
  | [] => []
  | u :: us =>
      (if u.pk = userId then { u with username := username } else u) ::
        userUpdateRows userId username us

/-- Output and database activity of one iteration of `lint`.  `info` is the
"I: Not checking" line, `query` a read issued against the entry model,
`warning` the "W: ... instance(s) have invalid usernames" line; `update`
stands for any write against a model, which `lint` never performs. -/
inductive LintEvent where
  | info (model : Nat) (targetName : String)
  | query (model : Nat)
  | warning (count : Nat) (model : Nat) (targetName : String) (pks : List Nat)
  | update (model : Nat)
deriving DecidableEq, Repr

/-- The username of the record the source relation of `r` points at, when
that record exists. -/
def relUsername (users : List UserRow) (r : Row) : Option String :=
  r.fk.bind fun k => (users.find? fun u => u.pk == k).map UserRow.username

/-- Primary keys selected by the lint queryset
`model.objects.exclude(source__username=F(target)).values_list("pk",
flat=True)`: the rows whose denormalised target attribute differs from the
current username of the related record. -/
def mismatchedPks (users : List UserRow) (rows : List Row) : List Nat :=
  (rows.filter fun r =>
      match relUsername users r with
      | some u => u != r.target
      | none => false).map Row.pk

/-- One iteration of `UsernameField.lint` (source lines 75-91): an entry
with `max_length < 30` is skipped with only the informational line;
otherwise the mismatched rows are queried and the warning line is emitted
exactly when some exist, carrying their count and primary keys. -/
def lintEntry (users : List UserRow) (e : Entry) (rows : List Row) :
    List LintEvent :=
  if e.max_length < 30 then [.info e.model e.targetName]
  else
    let qs := mismatchedPks users rows
    .query e.model ::
      (if qs.isEmpty then []
       else [.warning qs.length e.model e.targetName qs])

/-! Helper lemmas shared by the claim theorems. -/

/-- A slice bound at least the string length leaves the string unchanged. -/
theorem pySlice_of_le (u : String) (m : Nat) (h : u.length ≤ m) :
    pySlice u m = u := by
  cases u with
  | mk data =>
      simp only [String.length] at h
      simp only [pySlice]
      exact congrArg String.mk (List.take_of_length_le h)

/-- `pre_save` on an empty target and a resolving relation. -/
theorem preSave_related_eq (m : Nat) (r : Obj) (u : String)
    (ht : r.target = some "") (hr : r.relation = .related u) :
    preSave m r = ({ r with target := some (pySlice u m) },
      some (pySlice u m)) := by
  simp [preSave, ht, hr]

/-- `pre_save` short-circuits whenever the guard fails. -/
theorem preSave_of_ne (m : Nat) (r : Obj) (h : r.target ≠ some "") :
    preSave m r = (r, r.target) := by
  simp [preSave, h]

/-- Folding push-back over a list collects the images in order. -/
theorem foldl_push_eq_map {α β : Type} (g : α → β) (l : List α) (init : List β) :
    l.foldl (fun acc e => acc ++ [g e]) init = init ++ l.map g := by
  induction l generalizing init with
  | nil => simp
  | cons x xs ih => simp [ih]

/-- The write sequence of `rename_username`: the per-entry bulk updates in
registration order, then the canonical user update. -/
theorem renameUsername_eq (registry : List Entry) (uid : Nat) (uname : String) :
    renameUsername registry uid uname
      = registry.map (fun e => Op.bulkUpdate e.model e.source uid
          e.targetName (pySlice uname e.max_length))
        ++ [Op.userUpdate uid uname] := by
  unfold renameUsername
  rw [foldl_push_eq_map]
  simp

/-- `bulkUpdateRows` rewrites exactly the rows whose foreign key matches. -/
theorem bulkUpdateRows_eq_map (uid : Nat) (value : String) (rows : List Row) :
    bulkUpdateRows uid value rows
      = rows.map fun r =>
          if r.fk = some uid then { r with target := value } else r := by
  induction rows with
  | nil => rfl
  | cons r rs ih => simp [bulkUpdateRows, ih]

/-- `userUpdateRows` rewrites exactly the user row whose pk matches. -/
theorem userUpdateRows_eq_map (uid : Nat) (uname : String)
    (users : List UserRow) :
    userUpdateRows uid uname users
      = users.map fun w =>
          if w.pk = uid then { w with username := uname } else w := by
  induction users with
  | nil => rfl
  | cons w ws ih => simp [userUpdateRows, ih]

/-- Membership in the lint queryset result. -/
theorem mem_mismatchedPks (users : List UserRow) (rows : List Row) (p : Nat) :
    p ∈ mismatchedPks users rows ↔
      ∃ r, r ∈ rows ∧ r.pk = p ∧
        ∃ u, relUsername users r = some u ∧ u ≠ r.target := by
  unfold mismatchedPks
  simp only [List.mem_map, List.mem_filter]
  constructor
  · rintro ⟨r, ⟨hr, hf⟩, hpk⟩
    refine ⟨r, hr, hpk, ?_⟩
    cases hu : relUsername users r with
    | none => rw [hu] at hf; simp at hf
    | some u =>
        rw [hu] at hf
        exact ⟨u, rfl, by simpa using hf⟩
  · rintro ⟨r, hr, hpk, u, hu, hne⟩
    exact ⟨r, ⟨hr, by rw [hu]; simpa using hne⟩, hpk⟩

/-! Claim theorems. -/

/-- C1: for a record whose target attribute equals the empty string and
whose relation resolves to a related object, `pre_save` sets the target
attribute to the first `max_length` characters of the related username
(the string unchanged when it is shorter than `max_length`) and returns
that value. -/
theorem preSave_populates (m : Nat) (r : Obj) (u : String)
    (ht : r.target = some "") (hr : r.relation = .related u) :
    (preSave m r).1.target = some (pySlice u m) ∧
    (preSave m r).2 = some (pySlice u m) ∧
    (u.length ≤ m → (preSave m r).1.target = some u) := by
  rw [preSave_related_eq m r u ht hr]
  refine ⟨rfl, rfl, fun hle => ?_⟩
  rw [pySlice_of_le u m hle]

theorem preSave_populates_witness :
    (preSave 3 ⟨some "", .related "alice"⟩).1.target = some (pySlice "alice" 3) ∧
    (preSave 3 ⟨some "", .related "alice"⟩).2 = some (pySlice "alice" 3) ∧
    ("alice".length ≤ 3 →
      (preSave 3 ⟨some "", .related "alice"⟩).1.target = some "alice") :=
  preSave_populates 3 ⟨some "", .related "alice"⟩ "alice" rfl rfl

/-- C3: for a record whose target attribute is the empty string and whose
relation is dangling (`ObjectDoesNotExist`), `pre_save` swallows the
failure, leaves the record untouched, and returns the current (empty)
value; being a total function, it raises no error. -/
theorem preSave_dangling (m : Nat) (r : Obj)
    (ht : r.target = some "") (hr : r.relation = .dangling) :
    preSave m r = (r, some "") := by
  simp [preSave, ht, hr]

theorem preSave_dangling_witness :
    preSave 30 ⟨some "", .dangling⟩ = (⟨some "", .dangling⟩, some "") :=
  preSave_dangling 30 ⟨some "", .dangling⟩ rfl rfl

/-- C9: for a record whose target attribute is the empty string and whose
relation resolves to the null sentinel, `pre_save` sets the target
attribute to the empty string and returns the empty string. -/
theorem preSave_nullRelation (m : Nat) (r : Obj)
    (ht : r.target = some "") (hr : r.relation = .nullRel) :
    (preSave m r).1.target = some "" ∧ (preSave m r).2 = some "" := by
  simp [preSave, ht, hr]

theorem preSave_nullRelation_witness :
    (preSave 30 ⟨some "", .nullRel⟩).1.target = some "" ∧
    (preSave 30 ⟨some "", .nullRel⟩).2 = some "" :=
  preSave_nullRelation 30 ⟨some "", .nullRel⟩ rfl rfl

/-- C6: the emptiness guard makes `pre_save` idempotent: on a record whose
target attribute is not the empty string it changes nothing, so a second
invocation yields exactly what the first did. -/
theorem preSave_idempotent (m : Nat) (r : Obj) (h : r.target ≠ some "") :
    preSave m r = (r, r.target) ∧
    preSave m (preSave m r).1 = preSave m r := by
  have h1 := preSave_of_ne m r h
  exact ⟨h1, by rw [h1, h1]⟩

theorem preSave_idempotent_witness :
    preSave 30 ⟨some "bob", .related "alice"⟩
      = (⟨some "bob", .related "alice"⟩, some "bob") ∧
    preSave 30 (preSave 30 ⟨some "bob", .related "alice"⟩).1
      = preSave 30 ⟨some "bob", .related "alice"⟩ :=
  preSave_idempotent 30 ⟨some "bob", .related "alice"⟩ (by simp)

/-- C10: the guard is strict equality with the empty string: on any record
whose target attribute differs from the empty string — Python `None`
included — `pre_save` leaves the attribute unchanged and returns its
current value, whatever the relation holds (no relation lookup can affect
the outcome), so a `None`-valued target is never populated. -/
theorem preSave_guard_strict (m : Nat) (r : Obj) (h : r.target ≠ some "") :
    preSave m r = (r, r.target) ∧
    ∀ rel : Relation,
      preSave m { r with relation := rel }
        = ({ r with relation := rel }, r.target) := by
  refine ⟨preSave_of_ne m r h, fun rel => ?_⟩
  exact preSave_of_ne m { r with relation := rel } h

theorem preSave_guard_strict_witness :
    preSave 30 ⟨none, .related "alice"⟩ = (⟨none, .related "alice"⟩, none) ∧
    preSave 30 ⟨none, .dangling⟩ = (⟨none, .dangling⟩, none) :=
  ⟨(preSave_guard_strict 30 ⟨none, .related "alice"⟩ (by simp)).1,
   (preSave_guard_strict 30 ⟨none, .related "alice"⟩ (by simp)).2 .dangling⟩

/-- C2: `rename_username` issues one bulk update per registry entry — in
registration order — setting the target attribute to the first
`max_length` characters of the new username on exactly the rows whose
source foreign key equals `user_id`, and finally sets the canonical user
record username to the untruncated new username. -/
theorem renameUsername_spec (registry : List Entry) (uid : Nat)
    (uname : String) (value : String) (rows : List Row)
    (users : List UserRow) :
    renameUsername registry uid uname
      = registry.map (fun e => Op.bulkUpdate e.model e.source uid
          e.targetName (pySlice uname e.max_length))
        ++ [Op.userUpdate uid uname] ∧
    bulkUpdateRows uid value rows
      = rows.map (fun r =>
          if r.fk = some uid then { r with target := value } else r) ∧
    userUpdateRows uid uname users
      = users.map (fun w =>
          if w.pk = uid then { w with username := uname } else w) :=
  ⟨renameUsername_eq registry uid uname,
   bulkUpdateRows_eq_map uid value rows,
   userUpdateRows_eq_map uid uname users⟩

/-- C8: `rename_username` processes the registry entries in registration
order — the first `registry.length` writes are the per-entry bulk updates
in list order — and the canonical user update is the single write after
all of them. -/
theorem renameUsername_order (registry : List Entry) (uid : Nat)
    (uname : String) :
    (renameUsername registry uid uname).take registry.length
      = registry.map (fun e => Op.bulkUpdate e.model e.source uid
          e.targetName (pySlice uname e.max_length)) ∧
    (renameUsername registry uid uname)[registry.length]?
      = some (Op.userUpdate uid uname) ∧
    (renameUsername registry uid uname).length = registry.length + 1 := by
  rw [renameUsername_eq]
  refine ⟨?_, ?_, ?_⟩
  · have hlen : (registry.map (fun e => Op.bulkUpdate e.model e.source uid
        e.targetName (pySlice uname e.max_length))).length
          = registry.length := List.length_map _ _
    rw [← hlen, List.take_left]
  · have hlen : (registry.map (fun e => Op.bulkUpdate e.model e.source uid
        e.targetName (pySlice uname e.max_length))).length
          = registry.length := List.length_map _ _
    rw [← hlen, List.getElem?_concat_length]
  · simp

/-- C7: attaching the field to an abstract model registers nothing;
attaching it to a concrete model appends exactly one entry
`(model, populate_from, field name, max_length)`; in either case the old
registry is an unremoved initial segment of the new one. -/
theorem contributeToClass_registers (pf : String) (m : Nat)
    (registry : List Entry) (cls : ModelMeta) (nm : String) :
    contributeToClass pf m registry cls nm
      = (if cls.abstract then registry
         else registry ++ [⟨cls.model, pf, nm, m⟩]) ∧
    ∃ t, contributeToClass pf m registry cls nm = registry ++ t ∧
      t.length = (if cls.abstract then 0 else 1) := by
  refine ⟨rfl, ?_⟩
  cases hc : cls.abstract with
  | true => exact ⟨[], by simp [contributeToClass, hc]⟩
  | false => exact ⟨[⟨cls.model, pf, nm, m⟩], by simp [contributeToClass, hc]⟩

/-- C4: on a registry entry with `max_length ≥ 30`, `lint` queries the rows
whose target attribute differs from the current username of the related
record and emits the warning — carrying their count, the model, the field
name and the mismatched primary keys — exactly when at least one such row
exists; it performs no write. -/
theorem lintEntry_checks (users : List UserRow) (e : Entry) (rows : List Row)
    (h : 30 ≤ e.max_length) :
    lintEntry users e rows
      = .query e.model ::
          (if (mismatchedPks users rows).isEmpty then []
           else [.warning (mismatchedPks users rows).length e.model
                  e.targetName (mismatchedPks users rows)]) ∧
    ((∃ c tn pks, LintEvent.warning c e.model tn pks ∈ lintEntry users e rows)
        ↔ mismatchedPks users rows ≠ []) ∧
    (∀ p, p ∈ mismatchedPks users rows ↔
        ∃ r, r ∈ rows ∧ r.pk = p ∧
          ∃ u, relUsername users r = some u ∧ u ≠ r.target) ∧
    (∀ mdl, LintEvent.update mdl ∉ lintEntry users e rows) := by
  have hnot : ¬ e.max_length < 30 := not_lt.mpr h
  have heq : lintEntry users e rows
      = .query e.model ::
          (if (mismatchedPks users rows).isEmpty then []
           else [.warning (mismatchedPks users rows).length e.model
                  e.targetName (mismatchedPks users rows)]) := by
    simp [lintEntry, hnot]
  refine ⟨heq, ?_, fun p => mem_mismatchedPks users rows p, fun mdl => ?_⟩
  · rw [heq]
    by_cases hq : (mismatchedPks users rows).isEmpty
    · have hnil : mismatchedPks users rows = [] := by
        simpa [List.isEmpty_iff] using hq
      simp [hq, hnil]
    · have hne : mismatchedPks users rows ≠ [] := by
        intro hnil; exact hq (by simp [hnil])
      simp only [if_neg hq]
      constructor
      · intro _; exact hne
      · intro _
        exact ⟨(mismatchedPks users rows).length, e.targetName,
          mismatchedPks users rows, by simp⟩
  · rw [heq]
    by_cases hq : (mismatchedPks users rows).isEmpty <;> simp [hq]

theorem lintEntry_checks_witness :
    lintEntry [⟨7, "alice"⟩] ⟨1, "user", "username", 30⟩ [⟨1, some 7, "bob"⟩]
      = [.query 1, .warning 1 1 "username" [1]] := by
  have h := lintEntry_checks [⟨7, "alice"⟩] ⟨1, "user", "username", 30⟩
    [⟨1, some 7, "bob"⟩] (by decide)
  rw [h.1]
  decide

/-- C5: a registry entry with `max_length < 30` is skipped entirely: `lint`
emits only the informational line for it — no query is issued against its
model and no warning is produced. -/
theorem lintEntry_skips (users : List UserRow) (e : Entry) (rows : List Row)
    (h : e.max_length < 30) :
    lintEntry users e rows = [.info e.model e.targetName] ∧
    (∀ mdl, LintEvent.query mdl ∉ lintEntry users e rows) ∧
    (∀ c mdl tn pks,
      LintEvent.warning c mdl tn pks ∉ lintEntry users e rows) := by
  have heq : lintEntry users e rows = [.info e.model e.targetName] := by
    simp [lintEntry, h]
  refine ⟨heq, fun mdl => ?_, fun c mdl tn pks => ?_⟩ <;> simp [heq]

theorem lintEntry_skips_witness :
    lintEntry [⟨7, "alice"⟩] ⟨2, "user", "username", 10⟩ [⟨1, some 7, "bob"⟩]
      = [.info 2 "username"] ∧
    LintEvent.query 2 ∉
      lintEntry [⟨7, "alice"⟩] ⟨2, "user", "username", 10⟩
        [⟨1, some 7, "bob"⟩] :=
  ⟨(lintEntry_skips [⟨7, "alice"⟩] ⟨2, "user", "username", 10⟩
      [⟨1, some 7, "bob"⟩] (by decide)).1,
   (lintEntry_skips [⟨7, "alice"⟩] ⟨2, "user", "username", 10⟩
      [⟨1, some 7, "bob"⟩] (by decide)).2.1 2⟩

end UsernameField
